import Mathlib

/-!
Verification of the core task-list data management component of the
`todo-cli` program (`src/main.rs`): the `Task` and `TodoList` types,
identifier assignment, status transitions, filtering queries, and the
JSON persistence round-trip.

The embedding is shallow: the Rust `usize` fields become `Nat`, the
`Vec<Task>` becomes `List Task`, and each method becomes a Lean function
returning its result value together with the updated store (Rust mutates
`&mut self`; here the new state is returned explicitly).
-/

namespace TodoCli

/-- Rust `enum TaskStatus { Todo, Done }` from `src/main.rs`. -/
inductive TaskStatus where
  | Todo
  | Done
deriving DecidableEq

/-- Rust `struct Task { id: usize, description: String, status: TaskStatus }`. -/
structure Task where
  id : Nat
  description : String
  status : TaskStatus
deriving DecidableEq

/-- Rust `Task::new(id, description)`: a fresh task always starts as `Todo`. -/
def Task.new (id : Nat) (description : String) : Task :=
  { id := id, description := description, status := TaskStatus.Todo }

/-- Rust `Task::mark_done`: sets `status = Done` unconditionally. -/
def Task.mark_done (t : Task) : Task :=
  { t with status := TaskStatus.Done }

/-- Rust `Task::mark_todo`: sets `status = Todo` unconditionally. -/
def Task.mark_todo (t : Task) : Task :=
  { t with status := TaskStatus.Todo }

/-- Rust `struct TodoList { tasks: Vec<Task>, next_id: usize }`. -/
structure TodoList where
  tasks : List Task
  next_id : Nat
deriving DecidableEq

/-- Rust `TodoList::new()`: empty task vector, counter starts at 1. -/
def TodoList.new : TodoList :=
  { tasks := [], next_id := 1 }

/-- Rust `TodoList::add_task`: assigns `id = next_id`, pushes a fresh `Todo`
task at the end, increments the counter, and returns the assigned id. -/
def TodoList.add_task (s : TodoList) (description : String) : Nat × TodoList :=
  (s.next_id,
   { tasks := s.tasks ++ [Task.new s.next_id description],
     next_id := s.next_id + 1 })

/-- The effect of `self.tasks.iter_mut().find(|t| t.id == id)` followed by a
mutation of the found task: apply `f` to the first task whose id matches,
returning `none` when no task matches. -/
def modifyFirst (i : Nat) (f : Task → Task) : List Task → Option (List Task)
  | [] => none
  | t :: ts =>
    if t.id = i then some (f t :: ts)
    else (modifyFirst i f ts).map fun ts2 => t :: ts2

/-- Rust `TodoList::mark_done(id)`: transition the matching task to `Done`,
returning `true` on success and `false` (store untouched) when absent. -/
def TodoList.mark_done (s : TodoList) (i : Nat) : Bool × TodoList :=
  match modifyFirst i Task.mark_done s.tasks with
  | some ts => (true, { s with tasks := ts })
  | none => (false, s)

/-- Rust `TodoList::mark_todo(id)`: symmetric to `mark_done`. -/
def TodoList.mark_todo (s : TodoList) (i : Nat) : Bool × TodoList :=
  match modifyFirst i Task.mark_todo s.tasks with
  | some ts => (true, { s with tasks := ts })
  | none => (false, s)

/-- The effect of `self.tasks.iter().position(|t| t.id == id)` followed by
`self.tasks.remove(pos)`: drop the first task whose id matches. -/
def removeFirst (i : Nat) : List Task → Option (List Task)
  | [] => none
  | t :: ts =>
    if t.id = i then some ts
    else (removeFirst i ts).map fun ts2 => t :: ts2

/-- Rust `TodoList::remove_task(id)`: delete the matching task, preserving the
order of the rest; `true` on success, `false` when absent. -/
def TodoList.remove_task (s : TodoList) (i : Nat) : Bool × TodoList :=
  match removeFirst i s.tasks with
  | some ts => (true, { s with tasks := ts })
  | none => (false, s)

/-- Rust `TodoList::list_all`: the sequence of tasks displayed, in stored order. -/
def TodoList.list_all (s : TodoList) : List Task :=
  s.tasks

/-- Rust `TodoList::list_todo`: `tasks.iter().filter(|t| t.status == Todo)`. -/
def TodoList.list_todo (s : TodoList) : List Task :=
  s.tasks.filter fun t => t.status = TaskStatus.Todo

/-- Rust `TodoList::list_done`: `tasks.iter().filter(|t| t.status == Done)`. -/
def TodoList.list_done (s : TodoList) : List Task :=
  s.tasks.filter fun t => t.status = TaskStatus.Done

/-- Rust `TodoList::clear_done`: `retain(|t| t.status == Todo)` and return
`initial_count - new_count`, the number of tasks dropped. -/
def TodoList.clear_done (s : TodoList) : Nat × TodoList :=
  let remaining := s.tasks.filter fun t => t.status = TaskStatus.Todo
  (s.tasks.length - remaining.length, { s with tasks := remaining })

/-- One mutating command of the store, as dispatched by `main`. -/
inductive Op where
  | add (description : String)
  | markDone (id : Nat)
  | markTodo (id : Nat)
  | remove (id : Nat)
  | clearDone

/-- Apply one operation to the store, discarding the returned value. -/
def applyOp (s : TodoList) : Op → TodoList
  | Op.add d => (s.add_task d).2
  | Op.markDone i => (s.mark_done i).2
  | Op.markTodo i => (s.mark_todo i).2
  | Op.remove i => (s.remove_task i).2
  | Op.clearDone => s.clear_done.2

/-- Run a sequence of operations from a starting store. -/
def runOps (s : TodoList) : List Op → TodoList
  | [] => s
  | op :: ops => runOps (applyOp s op) ops

/-- The ids returned by the `add_task` calls of a run, in call order. -/
def assignedIds (s : TodoList) : List Op → List Nat
  | [] => []
  | Op.add d :: ops => (s.add_task d).1 :: assignedIds (s.add_task d).2 ops
  | op :: ops => assignedIds (applyOp s op) ops

/-- Number of `add` operations in a sequence. -/
def countAdds : List Op → Nat
  | [] => 0
  | Op.add _ :: ops => countAdds ops + 1
  | _ :: ops => countAdds ops

/-! ### Structure of the find-and-modify / find-and-remove helpers -/

theorem modifyFirst_eq_some {i : Nat} {f : Task → Task} :
    ∀ {ts ts' : List Task}, modifyFirst i f ts = some ts' →
    ∃ pre t post, ts = pre ++ t :: post ∧ t.id = i ∧ (∀ u ∈ pre, u.id ≠ i) ∧
      ts' = pre ++ f t :: post := by
  intro ts
  induction ts with
  | nil => intro ts' h; simp [modifyFirst] at h
  | cons t ts ih =>
    intro ts' h
    by_cases hid : t.id = i
    · refine ⟨[], t, ts, by simp, hid, by simp, ?_⟩
      simp [modifyFirst, hid] at h
      simp [← h]
    · simp [modifyFirst, hid] at h
      obtain ⟨ts₀, h₀, hts'⟩ := h
      obtain ⟨pre, u, post, hts, hu, hpre, h₀'⟩ := ih h₀
      exact ⟨t :: pre, u, post, by simp [hts], hu,
        by simpa [hid] using hpre, by simp [← hts', h₀']⟩

theorem modifyFirst_eq_none {i : Nat} {f : Task → Task} :
    ∀ {ts : List Task}, modifyFirst i f ts = none ↔ ∀ t ∈ ts, t.id ≠ i := by
  intro ts
  induction ts with
  | nil => simp [modifyFirst]
  | cons t ts ih =>
    by_cases hid : t.id = i <;> simp [modifyFirst, hid, ih]

theorem modifyFirst_append {i : Nat} {f : Task → Task} :
    ∀ (pre : List Task), (∀ u ∈ pre, u.id ≠ i) → ∀ (t : Task), t.id = i →
    ∀ (post : List Task),
    modifyFirst i f (pre ++ t :: post) = some (pre ++ f t :: post) := by
  intro pre
  induction pre with
  | nil => intro _ t ht post; simp [modifyFirst, ht]
  | cons u pre ih =>
    intro hpre t ht post
    have hu : u.id ≠ i := hpre u (by simp)
    have := ih (fun v hv => hpre v (by simp [hv])) t ht post
    simp [modifyFirst, hu, this]

theorem removeFirst_eq_some {i : Nat} :
    ∀ {ts ts' : List Task}, removeFirst i ts = some ts' →
    ∃ pre t post, ts = pre ++ t :: post ∧ t.id = i ∧ (∀ u ∈ pre, u.id ≠ i) ∧
      ts' = pre ++ post := by
  intro ts
  induction ts with
  | nil => intro ts' h; simp [removeFirst] at h
  | cons t ts ih =>
    intro ts' h
    by_cases hid : t.id = i
    · refine ⟨[], t, ts, by simp, hid, by simp, ?_⟩
      simp [removeFirst, hid] at h
      simp [← h]
    · simp [removeFirst, hid] at h
      obtain ⟨ts₀, h₀, hts'⟩ := h
      obtain ⟨pre, u, post, hts, hu, hpre, h₀'⟩ := ih h₀
      exact ⟨t :: pre, u, post, by simp [hts], hu,
        by simpa [hid] using hpre, by simp [← hts', h₀']⟩

theorem removeFirst_eq_none {i : Nat} :
    ∀ {ts : List Task}, removeFirst i ts = none ↔ ∀ t ∈ ts, t.id ≠ i := by
  intro ts
  induction ts with
  | nil => simp [removeFirst]
  | cons t ts ih =>
    by_cases hid : t.id = i <;> simp [removeFirst, hid, ih]

/-! ### The counter is untouched by every operation except `add_task` -/

theorem mark_done_next_id (s : TodoList) (i : Nat) :
    (s.mark_done i).2.next_id = s.next_id := by
  unfold TodoList.mark_done
  cases modifyFirst i Task.mark_done s.tasks <;> rfl

theorem mark_todo_next_id (s : TodoList) (i : Nat) :
    (s.mark_todo i).2.next_id = s.next_id := by
  unfold TodoList.mark_todo
  cases modifyFirst i Task.mark_todo s.tasks <;> rfl

theorem remove_task_next_id (s : TodoList) (i : Nat) :
    (s.remove_task i).2.next_id = s.next_id := by
  unfold TodoList.remove_task
  cases removeFirst i s.tasks <;> rfl

theorem clear_done_next_id (s : TodoList) :
    s.clear_done.2.next_id = s.next_id := rfl

/-! ### Id assignment along a run -/

theorem assignedIds_run : ∀ (ops : List Op) (s : TodoList),
    assignedIds s ops = List.range' s.next_id (countAdds ops) ∧
    (runOps s ops).next_id = s.next_id + countAdds ops := by
  intro ops
  induction ops with
  | nil => intro s; simp [assignedIds, countAdds, runOps]
  | cons op ops ih =>
    intro s
    cases op with
    | add d =>
      have h1 := (ih (s.add_task d).2).1
      have h2 := (ih (s.add_task d).2).2
      simp only [TodoList.add_task] at h1 h2
      constructor
      · simp [assignedIds, countAdds, List.range'_succ, TodoList.add_task, h1]
      · simp only [runOps, countAdds, applyOp, TodoList.add_task] at h2 ⊢
        omega
    | markDone i =>
      have h := ih (applyOp s (Op.markDone i))
      simpa [assignedIds, countAdds, runOps, applyOp, mark_done_next_id] using h
    | markTodo i =>
      have h := ih (applyOp s (Op.markTodo i))
      simpa [assignedIds, countAdds, runOps, applyOp, mark_todo_next_id] using h
    | remove i =>
      have h := ih (applyOp s (Op.remove i))
      simpa [assignedIds, countAdds, runOps, applyOp, remove_task_next_id] using h
    | clearDone =>
      have h := ih (applyOp s Op.clearDone)
      simpa [assignedIds, countAdds, runOps, applyOp, clear_done_next_id] using h

/-- C1: `add_task` assigns `id = next_id`, appends a fresh `Todo` task at the
end, increments `next_id`, and returns the assigned id; and along any run
from a fresh store whose `add` operations number `N`, the assigned ids are
exactly `[1, ..., N]` in call order and the final `next_id` is `N + 1`,
whatever other operations are interleaved. -/
theorem add_task_spec :
    (∀ (s : TodoList) (d : String),
      s.add_task d =
        (s.next_id,
         { tasks := s.tasks ++
             [{ id := s.next_id, description := d, status := TaskStatus.Todo }],
           next_id := s.next_id + 1 })) ∧
    (∀ ops : List Op,
      assignedIds TodoList.new ops = List.range' 1 (countAdds ops) ∧
      (runOps TodoList.new ops).next_id = countAdds ops + 1) := by
  constructor
  · intro s d; rfl
  · intro ops
    have h := assignedIds_run ops TodoList.new
    simpa [TodoList.new, Nat.add_comm] using h

/-! ### The store invariant: distinct ids, all below the counter -/

/-- The data-model invariant of §3 of the spec: ids in `tasks` are pairwise
distinct and every one of them is strictly below `next_id`. -/
def Inv (s : TodoList) : Prop :=
  (s.tasks.map Task.id).Nodup ∧ ∀ x ∈ s.tasks.map Task.id, x < s.next_id

theorem modifyFirst_map_id {i : Nat} {f : Task → Task}
    (hf : ∀ t, (f t).id = t.id) {ts ts' : List Task}
    (h : modifyFirst i f ts = some ts') :
    ts'.map Task.id = ts.map Task.id := by
  obtain ⟨pre, t, post, hts, -, -, hts'⟩ := modifyFirst_eq_some h
  subst hts hts'
  simp [hf]

theorem add_task_inv {s : TodoList} {d : String} (h : Inv s) :
    Inv (s.add_task d).2 := by
  obtain ⟨hnd, hlt⟩ := h
  constructor
  · simp only [TodoList.add_task, List.map_append]
    refine List.Nodup.append hnd (by simp [Task.new]) ?_
    intro x hx hx'
    have := hlt x hx
    simp [Task.new] at hx'
    omega
  · intro x hx
    simp only [TodoList.add_task, List.map_append, List.mem_append] at hx
    simp only [TodoList.add_task]
    rcases hx with hx | hx
    · have := hlt x hx; omega
    · simp [Task.new] at hx; omega

theorem mark_done_inv {s : TodoList} {i : Nat} (h : Inv s) :
    Inv (s.mark_done i).2 := by
  unfold TodoList.mark_done
  cases hm : modifyFirst i Task.mark_done s.tasks with
  | none => exact h
  | some ts =>
    have hmap := modifyFirst_map_id (fun t => (rfl : (Task.mark_done t).id = t.id)) hm
    exact ⟨hmap ▸ h.1, fun x hx => h.2 x (hmap ▸ hx)⟩

theorem mark_todo_inv {s : TodoList} {i : Nat} (h : Inv s) :
    Inv (s.mark_todo i).2 := by
  unfold TodoList.mark_todo
  cases hm : modifyFirst i Task.mark_todo s.tasks with
  | none => exact h
  | some ts =>
    have hmap := modifyFirst_map_id (fun t => (rfl : (Task.mark_todo t).id = t.id)) hm
    exact ⟨hmap ▸ h.1, fun x hx => h.2 x (hmap ▸ hx)⟩

theorem removeFirst_sublist {i : Nat} {ts ts' : List Task}
    (h : removeFirst i ts = some ts') : ts'.Sublist ts := by
  obtain ⟨pre, t, post, hts, -, -, hts'⟩ := removeFirst_eq_some h
  subst hts hts'
  exact (List.sublist_cons_self t post).append_left pre

theorem remove_task_inv {s : TodoList} {i : Nat} (h : Inv s) :
    Inv (s.remove_task i).2 := by
  unfold TodoList.remove_task
  cases hm : removeFirst i s.tasks with
  | none => exact h
  | some ts =>
    have hsub : (ts.map Task.id).Sublist (s.tasks.map Task.id) :=
      (removeFirst_sublist hm).map Task.id
    exact ⟨hsub.nodup h.1, fun x hx => h.2 x (hsub.subset hx)⟩

theorem clear_done_inv {s : TodoList} (h : Inv s) :
    Inv s.clear_done.2 := by
  have hsub : (s.clear_done.2.tasks.map Task.id).Sublist (s.tasks.map Task.id) :=
    (List.filter_sublist s.tasks).map Task.id
  exact ⟨hsub.nodup h.1, fun x hx => h.2 x (hsub.subset hx)⟩

theorem runOps_inv : ∀ (ops : List Op) (s : TodoList), Inv s → Inv (runOps s ops) := by
  intro ops
  induction ops with
  | nil => intro s h; exact h
  | cons op ops ih =>
    intro s h
    refine ih (applyOp s op) ?_
    cases op with
    | add d => exact add_task_inv h
    | markDone i => exact mark_done_inv h
    | markTodo i => exact mark_todo_inv h
    | remove i => exact remove_task_inv h
    | clearDone => exact clear_done_inv h

/-- C2: every store reachable from the fresh store by `add_task`,
`mark_done`, `mark_todo`, `remove_task` and `clear_done` has pairwise
distinct task ids, and `next_id` exceeds every id currently stored and
every id ever assigned along the run; in particular a removal followed by
an addition can never create a duplicate id. -/
theorem reachable_store_invariant (ops : List Op) :
    ((runOps TodoList.new ops).tasks.map Task.id).Nodup ∧
    (∀ t ∈ (runOps TodoList.new ops).tasks, t.id < (runOps TodoList.new ops).next_id) ∧
    (∀ i ∈ assignedIds TodoList.new ops, i < (runOps TodoList.new ops).next_id) := by
  have hinv := runOps_inv ops TodoList.new ⟨by simp [TodoList.new], by simp [TodoList.new]⟩
  refine ⟨hinv.1, ?_, ?_⟩
  · intro t ht
    exact hinv.2 t.id (List.mem_map_of_mem Task.id ht)
  · intro i hi
    have h := assignedIds_run ops TodoList.new
    rw [h.1] at hi
    have := List.mem_range'_1.mp hi
    rw [h.2]
    simp [TodoList.new] at this ⊢
    omega

/-! ### Lookup results, frame conditions and idempotence -/

theorem modifyFirst_idem {i : Nat} {f : Task → Task}
    (hf : ∀ t, f (f t) = f t) (hid : ∀ t, (f t).id = t.id)
    {ts ts' : List Task} (h : modifyFirst i f ts = some ts') :
    modifyFirst i f ts' = some ts' := by
  obtain ⟨pre, t, post, hts, hti, hpre, hts'⟩ := modifyFirst_eq_some h
  subst hts hts'
  have happ := modifyFirst_append (f := f) pre hpre (f t)
    (by rw [hid]; exact hti) post
  rw [hf] at happ
  exact happ

/-- C4: `mark_done(id)` succeeds exactly when a task with that id is stored,
and on success a task with that id is `Done` afterwards; a miss returns the
`false` signal. `mark_todo` is symmetric, producing `Todo`. -/
theorem mark_done_mark_todo_spec (s : TodoList) (i : Nat) :
    ((s.mark_done i).1 = true ↔ ∃ t ∈ s.tasks, t.id = i) ∧
    ((s.mark_done i).1 = true →
      ∃ t ∈ (s.mark_done i).2.tasks, t.id = i ∧ t.status = TaskStatus.Done) ∧
    ((s.mark_todo i).1 = true ↔ ∃ t ∈ s.tasks, t.id = i) ∧
    ((s.mark_todo i).1 = true →
      ∃ t ∈ (s.mark_todo i).2.tasks, t.id = i ∧ t.status = TaskStatus.Todo) := by
  refine ⟨?_, ?_, ?_, ?_⟩
  · unfold TodoList.mark_done
    cases hm : modifyFirst i Task.mark_done s.tasks with
    | none =>
      simpa using fun t ht => modifyFirst_eq_none.mp hm t ht
    | some ts =>
      obtain ⟨pre, t, post, hts, hti, -, -⟩ := modifyFirst_eq_some hm
      simpa using ⟨t, by simp [hts], hti⟩
  · unfold TodoList.mark_done
    cases hm : modifyFirst i Task.mark_done s.tasks with
    | none => simp
    | some ts =>
      obtain ⟨pre, t, post, -, hti, -, hts'⟩ := modifyFirst_eq_some hm
      intro
      exact ⟨Task.mark_done t, by simp [hts'], hti, rfl⟩
  · unfold TodoList.mark_todo
    cases hm : modifyFirst i Task.mark_todo s.tasks with
    | none =>
      simpa using fun t ht => modifyFirst_eq_none.mp hm t ht
    | some ts =>
      obtain ⟨pre, t, post, hts, hti, -, -⟩ := modifyFirst_eq_some hm
      simpa using ⟨t, by simp [hts], hti⟩
  · unfold TodoList.mark_todo
    cases hm : modifyFirst i Task.mark_todo s.tasks with
    | none => simp
    | some ts =>
      obtain ⟨pre, t, post, -, hti, -, hts'⟩ := modifyFirst_eq_some hm
      intro
      exact ⟨Task.mark_todo t, by simp [hts'], hti, rfl⟩

/-- C5: when a task with the id is present, marking it done twice returns
`true` both times and the second call leaves the store exactly as the first
left it; likewise for `mark_todo`. -/
theorem mark_idempotent (s : TodoList) (i : Nat)
    (h : ∃ t ∈ s.tasks, t.id = i) :
    (s.mark_done i).1 = true ∧
    (s.mark_done i).2.mark_done i = (true, (s.mark_done i).2) ∧
    (s.mark_todo i).1 = true ∧
    (s.mark_todo i).2.mark_todo i = (true, (s.mark_todo i).2) := by
  obtain ⟨t0, ht0, hid0⟩ := h
  have hnd : modifyFirst i Task.mark_done s.tasks ≠ none := by
    rw [Ne, modifyFirst_eq_none]
    push_neg
    exact ⟨t0, ht0, hid0⟩
  have hnt : modifyFirst i Task.mark_todo s.tasks ≠ none := by
    rw [Ne, modifyFirst_eq_none]
    push_neg
    exact ⟨t0, ht0, hid0⟩
  refine ⟨?_, ?_, ?_, ?_⟩
  · unfold TodoList.mark_done
    cases hm : modifyFirst i Task.mark_done s.tasks with
    | none => exact absurd hm hnd
    | some ts => rfl
  · unfold TodoList.mark_done
    cases hm : modifyFirst i Task.mark_done s.tasks with
    | none => exact absurd hm hnd
    | some ts =>
      have h2 := modifyFirst_idem
        (fun t => (rfl : Task.mark_done (Task.mark_done t) = Task.mark_done t))
        (fun t => (rfl : (Task.mark_done t).id = t.id)) hm
      simp [h2]
  · unfold TodoList.mark_todo
    cases hm : modifyFirst i Task.mark_todo s.tasks with
    | none => exact absurd hm hnt
    | some ts => rfl
  · unfold TodoList.mark_todo
    cases hm : modifyFirst i Task.mark_todo s.tasks with
    | none => exact absurd hm hnt
    | some ts =>
      have h2 := modifyFirst_idem
        (fun t => (rfl : Task.mark_todo (Task.mark_todo t) = Task.mark_todo t))
        (fun t => (rfl : (Task.mark_todo t).id = t.id)) hm
      simp [h2]

/-- C6: `remove_task(id)` succeeds exactly when a task with that id is
stored; the surviving tasks form a sublist (same relative order) of the
original sequence, the counter is untouched, and on success the store is
the original with exactly the matching task cut out. -/
theorem remove_task_spec (s : TodoList) (i : Nat) :
    ((s.remove_task i).1 = true ↔ ∃ t ∈ s.tasks, t.id = i) ∧
    (s.remove_task i).2.tasks.Sublist s.tasks ∧
    (s.remove_task i).2.next_id = s.next_id ∧
    ((s.remove_task i).1 = true →
      ∃ pre t post, t.id = i ∧ s.tasks = pre ++ t :: post ∧
        (s.remove_task i).2.tasks = pre ++ post) := by
  refine ⟨?_, ?_, remove_task_next_id s i, ?_⟩
  · unfold TodoList.remove_task
    cases hm : removeFirst i s.tasks with
    | none =>
      simpa using fun t ht => removeFirst_eq_none.mp hm t ht
    | some ts =>
      obtain ⟨pre, t, post, hts, hti, -, -⟩ := removeFirst_eq_some hm
      simpa using ⟨t, by simp [hts], hti⟩
  · unfold TodoList.remove_task
    cases hm : removeFirst i s.tasks with
    | none => simp
    | some ts => simpa using removeFirst_sublist hm
  · unfold TodoList.remove_task
    cases hm : removeFirst i s.tasks with
    | none => simp
    | some ts =>
      obtain ⟨pre, t, post, hts, hti, -, hts'⟩ := removeFirst_eq_some hm
      intro
      exact ⟨pre, t, post, hti, hts, hts'⟩

/-- C10: a lookup miss leaves the store literally unchanged for `mark_done`,
`mark_todo` and `remove_task`; on success the mark operations rewrite only
the status field of the matched task, keeping its id and description, every
other task, the order, and `next_id` intact. -/
theorem lookup_miss_frame (s : TodoList) (i : Nat) :
    ((∀ t ∈ s.tasks, t.id ≠ i) →
      s.mark_done i = (false, s) ∧ s.mark_todo i = (false, s) ∧
        s.remove_task i = (false, s)) ∧
    ((s.mark_done i).1 = true →
      (s.mark_done i).2.next_id = s.next_id ∧
      ∃ pre t post, s.tasks = pre ++ t :: post ∧ t.id = i ∧
        (s.mark_done i).2.tasks =
          pre ++ { id := t.id, description := t.description,
                   status := TaskStatus.Done } :: post) ∧
    ((s.mark_todo i).1 = true →
      (s.mark_todo i).2.next_id = s.next_id ∧
      ∃ pre t post, s.tasks = pre ++ t :: post ∧ t.id = i ∧
        (s.mark_todo i).2.tasks =
          pre ++ { id := t.id, description := t.description,
                   status := TaskStatus.Todo } :: post) := by
  refine ⟨?_, ?_, ?_⟩
  · intro habs
    refine ⟨?_, ?_, ?_⟩
    · unfold TodoList.mark_done
      rw [modifyFirst_eq_none.mpr habs]
    · unfold TodoList.mark_todo
      rw [modifyFirst_eq_none.mpr habs]
    · unfold TodoList.remove_task
      rw [removeFirst_eq_none.mpr habs]
  · intro hsucc
    refine ⟨mark_done_next_id s i, ?_⟩
    unfold TodoList.mark_done at hsucc ⊢
    cases hm : modifyFirst i Task.mark_done s.tasks with
    | none => rw [hm] at hsucc; simp at hsucc
    | some ts =>
      obtain ⟨pre, t, post, hts, hti, -, hts'⟩ := modifyFirst_eq_some hm
      exact ⟨pre, t, post, hts, hti, by simp [hts', Task.mark_done]⟩
  · intro hsucc
    refine ⟨mark_todo_next_id s i, ?_⟩
    unfold TodoList.mark_todo at hsucc ⊢
    cases hm : modifyFirst i Task.mark_todo s.tasks with
    | none => rw [hm] at hsucc; simp at hsucc
    | some ts =>
      obtain ⟨pre, t, post, hts, hti, -, hts'⟩ := modifyFirst_eq_some hm
      exact ⟨pre, t, post, hts, hti, by simp [hts', Task.mark_todo]⟩

/-! ### Filtering queries and bulk clear -/

theorem status_cases (st : TaskStatus) :
    st = TaskStatus.Todo ∨ st = TaskStatus.Done := by
  cases st
  · exact Or.inl rfl
  · exact Or.inr rfl

theorem filter_status_length : ∀ ts : List Task,
    (ts.filter fun t => t.status = TaskStatus.Todo).length +
    (ts.filter fun t => t.status = TaskStatus.Done).length = ts.length := by
  intro ts
  induction ts with
  | nil => rfl
  | cons t ts ih =>
    rcases status_cases t.status with h | h <;>
      simp [List.filter_cons, h, ← ih] <;> omega

/-- C7: `clear_done` removes exactly the `Done` tasks (the survivors are the
stable `Todo` filtration, in their original relative order), returns the
number of `Done` tasks removed, leaves `next_id` alone, and afterwards
`list_done` is empty while `list_todo` is unchanged. -/
theorem clear_done_spec (s : TodoList) :
    s.clear_done.1 = s.list_done.length ∧
    s.clear_done.2.tasks = s.tasks.filter (fun t => t.status = TaskStatus.Todo) ∧
    s.clear_done.2.tasks.Sublist s.tasks ∧
    s.clear_done.2.next_id = s.next_id ∧
    s.clear_done.2.list_done = [] ∧
    s.clear_done.2.list_todo = s.list_todo := by
  refine ⟨?_, rfl, List.filter_sublist s.tasks, rfl, ?_, ?_⟩
  · have h := filter_status_length s.tasks
    have hle := (List.filter_sublist (p := fun t =>
      decide (t.status = TaskStatus.Todo)) s.tasks).length_le
    simp only [TodoList.clear_done, TodoList.list_done]
    omega
  · simp only [TodoList.clear_done, TodoList.list_done]
    rw [List.filter_eq_nil_iff]
    intro t ht
    have := (List.mem_filter.mp ht).2
    simp only [decide_eq_true_eq] at this ⊢
    simp [this]
  · simp only [TodoList.clear_done, TodoList.list_todo, List.filter_filter]
    simp

/-- C8: `list_todo` and `list_done` are disjoint, together they cover
exactly the tasks of `list_all`, and each is a sublist of `list_all`
(stable order-preserving filtration, no re-sort). -/
theorem list_filter_partition (s : TodoList) :
    (∀ t, t ∈ s.list_all ↔ t ∈ s.list_todo ∨ t ∈ s.list_done) ∧
    (∀ t, t ∈ s.list_todo → t ∉ s.list_done) ∧
    s.list_todo.Sublist s.list_all ∧
    s.list_done.Sublist s.list_all := by
  refine ⟨?_, ?_, List.filter_sublist s.tasks, List.filter_sublist s.tasks⟩
  · intro t
    simp only [TodoList.list_all, TodoList.list_todo, TodoList.list_done,
      List.mem_filter, decide_eq_true_eq]
    rcases status_cases t.status with h | h <;> simp [h]
  · intro t ht hd
    have h1 := (List.mem_filter.mp ht).2
    have h2 := (List.mem_filter.mp hd).2
    simp only [decide_eq_true_eq] at h1 h2
    rw [h1] at h2
    exact TaskStatus.noConfusion h2

/-! ### Persistence: the JSON round-trip and `load` -/

/-- Modelled from the spec: the serializer and parser themselves live in the
`serde`/`serde_json` crates, outside this repository, so the on-disk JSON
document (§6 persisted-state format) is embedded as an abstract tree. -/
inductive Json where
  | num (n : Nat)
  | str (s : String)
  | arr (xs : List Json)
  | obj (fields : List (String × Json))

/-- Modelled from the spec: the status enumeration is serialized as one of
two tagged string values corresponding to Todo/Done. -/
def statusTag : TaskStatus → String
  | TaskStatus.Todo => "Todo"
  | TaskStatus.Done => "Done"

/-- Modelled from the spec: serialized form of one status value. -/
def serializeStatus (st : TaskStatus) : Json :=
  Json.str (statusTag st)

/-- Modelled from the spec: each task is an object with `id` (integer),
`description` (string) and `status` (tagged value). -/
def serializeTask (t : Task) : Json :=
  Json.obj [("id", Json.num t.id), ("description", Json.str t.description),
            ("status", serializeStatus t.status)]

/-- Modelled from the spec: the persisted state is a single object with the
ordered `tasks` array and the `next_id` integer. -/
def serialize (s : TodoList) : Json :=
  Json.obj [("tasks", Json.arr (s.tasks.map serializeTask)),
            ("next_id", Json.num s.next_id)]

/-- Modelled from the spec: parse a status tag back. -/
def deserializeStatus : Json → Option TaskStatus
  | Json.str s =>
    if s = "Todo" then some TaskStatus.Todo
    else if s = "Done" then some TaskStatus.Done
    else none
  | _ => none

/-- Modelled from the spec: parse one task object back. -/
def deserializeTask : Json → Option Task
  | Json.obj [("id", Json.num i), ("description", Json.str d), ("status", st)] =>
    (deserializeStatus st).map fun x => { id := i, description := d, status := x }
  | _ => none

/-- Modelled from the spec: parse the tasks array back, failing if any
element fails. -/
def deserializeTasks : List Json → Option (List Task)
  | [] => some []
  | j :: js =>
    match deserializeTask j, deserializeTasks js with
    | some t, some ts => some (t :: ts)
    | _, _ => none

/-- Modelled from the spec: parse a whole persisted store back. -/
def deserialize : Json → Option TodoList
  | Json.obj [("tasks", Json.arr js), ("next_id", Json.num n)] =>
    (deserializeTasks js).map fun ts => { tasks := ts, next_id := n }
  | _ => none

/-- The `InvalidData` error kind that `TodoList::load` wraps a parse
failure in. -/
inductive LoadError where
  | invalidData
deriving DecidableEq

/-- Rust `TodoList::load`, over an abstract file system: `none` is a missing
`tasks.json` (a fresh store is returned), and `some j` is an existing file
holding document `j`, which must parse back into a store. Modelled from the
spec for the file-existence check and the parser; the control flow is that
of `TodoList::load` in `src/main.rs`. -/
def load : Option Json → Except LoadError TodoList
  | none => Except.ok TodoList.new
  | some j =>
    match deserialize j with
    | some s => Except.ok s
    | none => Except.error LoadError.invalidData

theorem deserializeStatus_roundtrip (st : TaskStatus) :
    deserializeStatus (serializeStatus st) = some st := by
  cases st <;> rfl

theorem deserializeTask_roundtrip (t : Task) :
    deserializeTask (serializeTask t) = some t := by
  simp [serializeTask, deserializeTask, deserializeStatus_roundtrip]

theorem deserializeTasks_roundtrip : ∀ ts : List Task,
    deserializeTasks (ts.map serializeTask) = some ts := by
  intro ts
  induction ts with
  | nil => rfl
  | cons t ts ih =>
    simp [deserializeTasks, deserializeTask_roundtrip, ih]

/-- C3: deserializing the serialization of any store returns exactly that
store — same tasks in the same order, same `next_id`. -/
theorem serialize_deserialize_roundtrip (s : TodoList) :
    deserialize (serialize s) = some s := by
  simp [serialize, deserialize, deserializeTasks_roundtrip]

/-- C9: loading from a missing file yields the fresh empty store with
`next_id = 1` as a normal (`ok`) outcome, and loading an existing but
unparsable document yields the `InvalidData` error rather than a crash. -/
theorem load_spec :
    load none = Except.ok { tasks := [], next_id := 1 } ∧
    (∀ j : Json, deserialize j = none →
      load (some j) = Except.error LoadError.invalidData) := by
  constructor
  · rfl
  · intro j h
    simp [load, h]

/-! ### Concrete sanity instances of the theorems above -/

/-- A concrete pending task, as in the scenario of §8 of the spec. -/
def t1 : Task := { id := 1, description := "buy milk", status := TaskStatus.Todo }

/-- A concrete completed task. -/
def t2 : Task := { id := 2, description := "pay bills", status := TaskStatus.Done }

/-- A small concrete store holding one pending and one completed task. -/
def sample : TodoList := { tasks := [t1, t2], next_id := 3 }

theorem reachable_store_invariant_witness :
    1 < (runOps TodoList.new [Op.add ("buy milk")]).next_id :=
  (reachable_store_invariant [Op.add ("buy milk")]).2.2 1 (by decide)

theorem mark_done_mark_todo_spec_witness :
    ∃ t ∈ (sample.mark_done 1).2.tasks, t.id = 1 ∧ t.status = TaskStatus.Done :=
  (mark_done_mark_todo_spec sample 1).2.1 (by decide)

theorem mark_idempotent_witness :
    (sample.mark_done 1).2.mark_done 1 = (true, (sample.mark_done 1).2) :=
  (mark_idempotent sample 1 (by decide)).2.1

theorem remove_task_spec_witness :
    ∃ pre t post, t.id = 1 ∧ sample.tasks = pre ++ t :: post ∧
      (sample.remove_task 1).2.tasks = pre ++ post :=
  (remove_task_spec sample 1).2.2.2 (by decide)

theorem list_filter_partition_witness : t1 ∉ sample.list_done :=
  (list_filter_partition sample).2.1 t1 (by decide)

theorem load_spec_witness :
    load (some (Json.num 0)) = Except.error LoadError.invalidData :=
  load_spec.2 (Json.num 0) rfl

theorem lookup_miss_frame_witness :
    sample.mark_done 99 = (false, sample) ∧
    sample.remove_task 99 = (false, sample) :=
  ⟨((lookup_miss_frame sample 99).1 (by decide)).1,
   ((lookup_miss_frame sample 99).1 (by decide)).2.2⟩

end TodoCli
